import Mathlib

/-!
Verification of the download-queue orchestrator of the ytdown client
(`src/app.py`) against its natural-language specification.

The Python source is shallowly embedded: each Python function that the
claims depend on becomes a Lean definition carrying the same name where
possible.  Strings are Lean `String`s (Python `str.startswith` is modelled
on the character list, matching Python's character — not byte — semantics),
Python floats arising from progress arithmetic are modelled as `ℚ`
(the claims concern the exact formulas and ranges, not rounding),
Python dicts are modelled by an insertion-ordered key list plus a value
function, and Python sets by duplicate-free insertion lists.
-/

/-- One fetched video, mirroring the `VideoInfo` dataclass. -/
structure VideoInfo where
  video_id : String
  title : String
  author : String
  duration : String
  thumbnail_url : String
deriving DecidableEq, Repr

/-! ## `VideoInfoFetcher._format_duration` -/

/-- Python `f"{n:02d}"`: decimal rendering left-padded with `0` to width 2. -/
def pad2 (n : Nat) : String :=
  if n < 10 then "0" ++ toString n else toString n

/-- `VideoInfoFetcher._format_duration`: `0`/unknown renders `"0:00"`, otherwise
hours/minutes/seconds are split with `//`/`%` and rendered `H:MM:SS` when
`hours > 0`, else `M:SS`.  Python's falsy test `not seconds` is `seconds = 0`
for the non-negative integer durations the extractor supplies. -/
def format_duration (seconds : Nat) : String :=
  if seconds = 0 then "0:00"
  else
    if seconds / 3600 > 0 then
      toString (seconds / 3600) ++ ":" ++ pad2 (seconds % 3600 / 60) ++ ":" ++ pad2 (seconds % 60)
    else
      toString (seconds % 3600 / 60) ++ ":" ++ pad2 (seconds % 60)

/-- The spec's words for an `H:MM:SS` rendering (hours unpadded, minutes and
seconds two-digit). -/
def specRenderHMS (h m s : Nat) : String :=
  toString h ++ ":" ++ pad2 m ++ ":" ++ pad2 s

/-- The spec's words for an `M:SS` rendering (minutes unpadded, seconds
two-digit). -/
def specRenderMS (m s : Nat) : String :=
  toString m ++ ":" ++ pad2 s

/-! ## `DownloadWorker._progress_hook` percentage -/

/-- `total_bytes or total_bytes_estimate` — Python's `or` takes the second
operand when the first is `None` or `0`. -/
def resolveTotal (total_bytes : Option Nat) (total_bytes_estimate : Nat) : Nat :=
  match total_bytes with
  | some n => if n = 0 then total_bytes_estimate else n
  | none => total_bytes_estimate

/-- The percentage computed by `DownloadWorker._progress_hook`:
`(downloaded / total) * 100` when `total > 0`, else `0`.  The source applies
no clamping. -/
def progressPercentage (downloaded total : Nat) : ℚ :=
  if 0 < total then (downloaded : ℚ) / (total : ℚ) * 100 else 0

/-! ## `DownloadWorker.run` format selector -/

/-- Python `s.replace('p', '')` for the single-character pattern used by
`DownloadWorker.run`: every occurrence of the character is dropped
(Python strings are character sequences, so this is defined on `.data`). -/
def pyReplaceChar (pat : Char) : List Char → List Char
  | [] => []
  | c :: cs => if c = pat then pyReplaceChar pat cs else c :: pyReplaceChar pat cs

/-- `height = self.quality.replace('p', '')` from `DownloadWorker.run`. -/
def heightOf (quality : String) : String :=
  ⟨pyReplaceChar 'p' quality.data⟩

/-- The `format_string` computed at the top of `DownloadWorker.run` from the
download type and the quality drop-down text. -/
def format_string (format_type quality : String) : String :=
  if format_type = "video" then
    if quality = "highest" then "bestvideo+bestaudio/best"
    else if quality = "144p" then "worst"
    else
      "bestvideo[height<=" ++ heightOf quality ++ "]+bestaudio/best[height<="
        ++ heightOf quality ++ "]"
  else
    "bestaudio/best"

/-- The quality options the UI offers for video that take the
height-constrained branch (`_update_quality_options` minus the two special
cases `"highest"` and `"144p"`). -/
def heightQualities : List (String × String) :=
  [("1080p", "1080"), ("720p", "720"), ("480p", "480"), ("360p", "360"), ("240p", "240")]

/-! ## `DownloadWorker.run` terminal events -/

/-- Payload of the `finished` signal: `(video_id, success, message)`. -/
structure TerminalEv where
  video_id : String
  success : Bool
  message : String
deriving DecidableEq, Repr

/-- What the engine call `ydl.download([url])` does: returns normally or
raises with a message.  A `stop()` signalled during the download surfaces
here as the `"Download cancelled"` exception raised by `_progress_hook`. -/
def EngineOutcome := Except String Unit

/-- The terminal events emitted by one execution of `DownloadWorker.run`.
`is_running_at_check` is the value of `self._is_running` when control
reaches the `if self._is_running:` guard: when it is `False` the download
and the success emit are skipped, no exception is raised, and `run` returns
without emitting anything; otherwise the download's outcome determines the
single emitted event, the failure message prefixed `"Download failed: "`. -/
def workerRun (video_id : String) (is_running_at_check : Bool)
    (engine : Except String Unit) : List TerminalEv :=
  if is_running_at_check then
    match engine with
    | Except.ok _ => [⟨video_id, true, "Download completed successfully!"⟩]
    | Except.error e => [⟨video_id, false, "Download failed: " ++ e⟩]
  else []

/-! ## `YouTubeDownloader._add_to_queue` -/

/-- `_add_to_queue`: append only when `video_id` is not already among the
queued ids; the pair's Boolean records whether an append happened (the
observable side effects — widget creation, label update — occur exactly in
that branch). -/
def add_to_queue (queue : List VideoInfo) (v : VideoInfo) : List VideoInfo × Bool :=
  if v.video_id ∈ queue.map VideoInfo.video_id then (queue, false)
  else (queue ++ [v], true)

/-! ## `YouTubeDownloader._on_download_finished` -/

/-- Python `s.startswith(pre)` on the character sequence. -/
def pyStartsWith (s pre : String) : Bool :=
  pre.data.isPrefixOf s.data

/-- Python `s.replace(pat, repl)` on character sequences, for a non-empty
pattern: scan left to right, replacing each occurrence. -/
def pyReplaceList (pat repl : List Char) : List Char → List Char
  | [] => []
  | c :: cs =>
    if h : pat ≠ [] ∧ pat.isPrefixOf (c :: cs) then
      repl ++ pyReplaceList pat repl ((c :: cs).drop pat.length)
    else
      c :: pyReplaceList pat repl cs
termination_by l => l.length
decreasing_by
  · simp only [List.length_drop]
    have : pat.length ≠ 0 := by
      intro hlen
      exact h.1 (List.eq_nil_of_length_eq_zero hlen)
    simp only [List.length_cons]
    omega
  · simp

/-- `message.replace("Download failed: ", "")` from `_on_download_finished`. -/
def stripDownloadFailed (message : String) : String :=
  ⟨pyReplaceList "Download failed: ".data [] message.data⟩

/-- The status-label text written by `VideoQueueItem.mark_completed` /
`mark_failed` (the failure message arrives with its `"Download failed: "`
prefix stripped by the caller). -/
def statusText (success : Bool) (message : String) : String :=
  if success then "✓ Download completed"
  else "✗ Failed: " ++ stripDownloadFailed message

/-- The per-item part of `_on_download_finished`: when `video_id` has a
queue-item widget its status label is rewritten, otherwise nothing is
recorded.  `items` is `queue_items` reduced to id ↦ status-label text. -/
def markItem (items : List (String × String)) (vid : String) (success : Bool)
    (message : String) : List (String × String) :=
  if (items.lookup vid).isSome then
    items.map (fun p => if p.1 = vid then (p.1, statusText success message) else p)
  else items

/-- The item statuses after a list of terminal events has been consumed. -/
def processFinishes (items : List (String × String)) (evs : List TerminalEv) :
    List (String × String) :=
  evs.foldl (fun its e => markItem its e.video_id e.success e.message) items

/-- The `all_success` expression of `_on_download_finished`: every queued
record that has a `queue_items` entry must show a status starting `"✓"`;
records without an entry are skipped by the generator's `if` filter. -/
def allSuccess (video_queue : List VideoInfo) (items : List (String × String)) : Bool :=
  video_queue.all fun v =>
    match items.lookup v.video_id with
    | some st => pyStartsWith st "✓"
    | none => true

/-- The final status-label text chosen at batch completion. -/
def finishMessage (all_success : Bool) (total_downloads : Nat) : String :=
  if all_success then
    "All " ++ toString total_downloads ++ " downloads completed successfully!"
  else "Downloads completed with some errors. Check individual statuses."

/-- The removal loop `for video_id in list(self.queue_items.keys()):
self._remove_from_queue(video_id)`, restricted to its effect on
`video_queue`. -/
def removeAllItems (queue : List VideoInfo) (itemKeys : List String) : List VideoInfo :=
  itemKeys.foldl (fun q vid => q.filter (fun v => v.video_id ≠ vid)) queue

/-- The queue after batch completion: the removal loop runs only when
`all_success` and the batch ran in bulk queue mode
(`is_queue_mode and not viewing_single_in_queue`). -/
def finishQueue (bulk_mode all_success : Bool) (queue : List VideoInfo)
    (itemKeys : List String) : List VideoInfo :=
  if all_success && bulk_mode then removeAllItems queue itemKeys else queue

/-- A concrete three-record queue for the C3 scenario. -/
def sampleQueue3 : List VideoInfo :=
  [⟨"a", "ta", "ua", "0:10", "tha"⟩, ⟨"b", "tb", "ub", "0:20", "thb"⟩,
   ⟨"c", "tc", "uc", "0:30", "thc"⟩]

/-! ## QueueStore: `video_queue` + `selected_videos` -/

/-- The store state: the ordered queue and the selection set
(`self.selected_videos`, a Python set modelled as a duplicate-free
insertion list). -/
structure Store where
  video_queue : List VideoInfo
  selected_videos : List String
deriving DecidableEq, Repr

/-- Python `set.add`. -/
def selAdd (sel : List String) (vid : String) : List String :=
  if vid ∈ sel then sel else sel ++ [vid]

/-- Python `set.discard`. -/
def selDiscard (sel : List String) (vid : String) : List String :=
  sel.filter (fun s2 => s2 ≠ vid)

/-- `_remove_from_queue`: one call filters the record out of `video_queue`
and discards the id from `selected_videos` (plus widget bookkeeping not
modelled here); there is no intermediate state between the two. -/
def remove_from_queue (s : Store) (vid : String) : Store :=
  { video_queue := s.video_queue.filter (fun v => v.video_id ≠ vid),
    selected_videos := selDiscard s.selected_videos vid }

/-- The UI actions that mutate the store: `_add_to_queue`, the delete
button (`_remove_from_queue`), a queue-item checkbox toggle
(`_on_item_selection_changed` with selected = true/false),
`_delete_selected`, `_cancel_selection`, and `_clear_video_display`
(which clears the selection but leaves `video_queue` alone). -/
inductive StoreOp where
  | add (v : VideoInfo)
  | remove (vid : String)
  | select (vid : String)
  | unselect (vid : String)
  | deleteSelected
  | cancelSelection
  | clearDisplay
deriving DecidableEq, Repr

/-- One UI action applied to the store. -/
def storeStep (s : Store) : StoreOp → Store
  | StoreOp.add v => { s with video_queue := (add_to_queue s.video_queue v).1 }
  | StoreOp.remove vid => remove_from_queue s vid
  | StoreOp.select vid => { s with selected_videos := selAdd s.selected_videos vid }
  | StoreOp.unselect vid => { s with selected_videos := selDiscard s.selected_videos vid }
  | StoreOp.deleteSelected =>
      { s.selected_videos.foldl remove_from_queue s with selected_videos := [] }
  | StoreOp.cancelSelection => { s with selected_videos := [] }
  | StoreOp.clearDisplay => { s with selected_videos := [] }

/-- A `select` can only originate from the checkbox of a live queue-item
widget, which exists only for a queued record; all other actions are
unconstrained. -/
def validOp (s : Store) : StoreOp → Bool
  | StoreOp.select vid => s.video_queue.any (fun v => v.video_id == vid)
  | _ => true

def runStore (s : Store) (ops : List StoreOp) : Store :=
  ops.foldl storeStep s

def validOps (s : Store) : List StoreOp → Bool
  | [] => true
  | op :: ops => validOp s op && validOps (storeStep s op) ops

/-- The C9 invariant: every selected id is the id of a queued record. -/
def StoreInv (s : Store) : Prop :=
  ∀ vid ∈ s.selected_videos, ∃ v ∈ s.video_queue, v.video_id = vid

/-! ## QueueOrchestrator: `_start_download`, `_on_download_progress`,
`_on_download_finished` accounting -/

/-- A Python dict from video id to latest percentage: insertion-ordered
keys plus the stored values. -/
structure Dict where
  keys : List String
  vals : String → ℚ

def Dict.empty : Dict := ⟨[], fun _ => 0⟩

/-- `d[k] = v`: value overwritten, key appended on first insertion. -/
def Dict.set (d : Dict) (k : String) (v : ℚ) : Dict :=
  ⟨if k ∈ d.keys then d.keys else d.keys ++ [k],
   fun x => if x = k then v else d.vals x⟩

/-- `d.values()`. -/
def Dict.values (d : Dict) : List ℚ := d.keys.map d.vals

/-- The `for video in self.video_queue: self.download_progress[video.video_id] = 0.0`
initialisation loop, after `self.download_progress.clear()`. -/
def initProgress (ids : List String) : Dict :=
  ids.foldl (fun d i => Dict.set d i 0) Dict.empty

/-- The worker signals consumed by the coordinator: `progress`
`(video_id, percentage, speed, eta)` and `finished`
`(video_id, success, message)`. -/
inductive Ev where
  | prog (video_id : String) (percentage : ℚ) (speed eta : String)
  | fin (video_id : String) (success : Bool) (message : String)
deriving DecidableEq, Repr

def Ev.id : Ev → String
  | Ev.prog vid _ _ _ => vid
  | Ev.fin vid _ _ => vid

def Ev.isFin : Ev → Bool
  | Ev.prog _ _ _ _ => false
  | Ev.fin _ _ _ => true

/-- The orchestrator's batch accounting state. -/
structure OrchState where
  active_downloads : Int
  total_downloads : Nat
  download_progress : Dict

/-- One coordinator reaction: `_on_download_progress` stores the latest
percentage under the task's id (`self.download_progress[video_id] = percentage`);
`_on_download_finished` decrements `active_downloads` by one.  (Label and
widget updates are not part of the accounting.) -/
def orchStep (s : OrchState) : Ev → OrchState
  | Ev.prog vid pct _ _ =>
      { s with download_progress := s.download_progress.set vid pct }
  | Ev.fin _ _ _ => { s with active_downloads := s.active_downloads - 1 }

def runOrch (s : OrchState) (tr : List Ev) : OrchState :=
  tr.foldl orchStep s

/-- The bulk branch of `_start_download`: `active_downloads` and
`total_downloads` are set to the queue length, `download_progress` is
cleared and re-seeded with `0.0` per queued id. -/
def startBatch (ids : List String) : OrchState :=
  { active_downloads := ids.length, total_downloads := ids.length,
    download_progress := initProgress ids }

/-- A `DownloadWorker` as constructed by `_start_download`. -/
structure DownloadWorker where
  video_id : String
  output_dir : String
  format_type : String
  quality : String
  container_format : String
  is_running : Bool
deriving DecidableEq, Repr

/-- The worker-spawning loop of `_start_download`: one worker per queued
record. -/
def startWorkers (ids : List String)
    (output_dir format_type quality container_format : String) : List DownloadWorker :=
  ids.map (fun i => ⟨i, output_dir, format_type, quality, container_format, true⟩)

/-- The aggregate `sum(self.download_progress.values()) / len(self.download_progress)`. -/
def avgProgress (d : Dict) : ℚ :=
  (Dict.values d).sum / (Dict.values d).length

/-- The spec's "arithmetic mean". -/
def arithMean (xs : List ℚ) : ℚ := xs.sum / xs.length

/-- The events of the trace belonging to task `t`. -/
def idEvents (t : String) (tr : List Ev) : List Ev :=
  tr.filter (fun e => e.id == t)

/-- What one task emits: progress events (in emission order), then its
single terminal event — the shape guaranteed by `DownloadWorker.run`
and Qt's per-sender signal ordering. -/
def taskStream (t : String) (ps : List (ℚ × String × String))
    (success : Bool) (message : String) : List Ev :=
  ps.map (fun p => Ev.prog t p.1 p.2.1 p.2.2) ++ [Ev.fin t success message]

/-- A batch trace: an interleaving of one task stream per queued id —
per-task subsequences are task streams, every event belongs to some task,
and ids are unique within a queue. -/
def ValidTrace (ids : List String) (tr : List Ev) : Prop :=
  ids.Nodup ∧ (∀ e ∈ tr, e.id ∈ ids) ∧
  ∀ t ∈ ids, ∃ ps success message, idEvents t tr = taskStream t ps success message

/-- A one-task batch trace: one progress tick, then the terminal event. -/
def sampleTrace1 : List Ev :=
  [Ev.prog "a" 50 "1.0 KB/s" "3s", Ev.fin "a" true "Download completed successfully!"]

/-- The value stored under `t` after a trace: the percentage of the last
progress event for `t`, or the given default. -/
def lastProgVal (t : String) (tr : List Ev) (dflt : ℚ) : ℚ :=
  tr.foldl (fun acc e =>
    match e with
    | Ev.prog vid pct _ _ => if vid = t then pct else acc
    | Ev.fin _ _ _ => acc) dflt

/-! # Claims -/

/-- Claim C10: the duration formatter renders 0/unknown as `"0:00"`,
durations of at least one hour as `H:MM:SS`, and all other durations as
`M:SS`. -/
theorem format_duration_correct (s : Nat) :
    (s = 0 → format_duration s = "0:00") ∧
    (3600 ≤ s → format_duration s = specRenderHMS (s / 3600) (s % 3600 / 60) (s % 60)) ∧
    (0 < s → s < 3600 → format_duration s = specRenderMS (s % 3600 / 60) (s % 60)) := by
  refine ⟨fun h => by simp [format_duration, h], fun h => ?_, fun h1 h2 => ?_⟩
  · have hs0 : s ≠ 0 := by omega
    have hh : 0 < s / 3600 := Nat.div_pos h (by norm_num)
    simp [format_duration, hs0, hh, specRenderHMS]
  · have hs0 : s ≠ 0 := by omega
    have hh : s / 3600 = 0 := Nat.div_eq_of_lt h2
    simp [format_duration, hs0, hh, specRenderMS]

/-- Witness for C10 at the spec's sample inputs 0, 65, 3661. -/
theorem format_duration_correct_witness :
    format_duration 0 = "0:00" ∧ format_duration 65 = "1:05" ∧
      format_duration 3661 = "1:01:01" := by
  refine ⟨(format_duration_correct 0).1 rfl, ?_, ?_⟩
  · exact ((format_duration_correct 65).2.2 (by norm_num) (by norm_num)).trans (by decide)
  · exact ((format_duration_correct 3661).2.1 (by norm_num)).trans (by decide)

/-- Claim C4 (amended): the reported percentage equals
`downloaded / total × 100` when the resolved total is positive and `0`
otherwise, and is never negative; it is at most 100 whenever
`downloaded ≤ total`, but the source does not clamp, so it exceeds 100
whenever `downloaded > total > 0` (see the counterexample). -/
theorem progress_percentage_props (downloaded total : Nat) :
    (0 < total → progressPercentage downloaded total = (downloaded : ℚ) / total * 100) ∧
    (total = 0 → progressPercentage downloaded total = 0) ∧
    (0 ≤ progressPercentage downloaded total) ∧
    (0 < total → downloaded ≤ total → progressPercentage downloaded total ≤ 100) := by
  refine ⟨fun h => by simp [progressPercentage, h], fun h => by simp [progressPercentage, h],
    ?_, fun h hle => ?_⟩
  · unfold progressPercentage
    split
    · positivity
    · exact le_refl 0
  · have ht : (0 : ℚ) < total := by exact_mod_cast h
    have hdt : (downloaded : ℚ) / total ≤ 1 := by
      rw [div_le_one ht]
      exact_mod_cast hle
    have hmu : (downloaded : ℚ) / total * 100 ≤ 100 := by nlinarith
    simpa [progressPercentage, h] using hmu

/-- Witness for C4's amended claim at `downloaded = 50`, `total = 100`. -/
theorem progress_percentage_props_witness :
    progressPercentage 50 100 = (50 : ℚ) / 100 * 100 ∧ progressPercentage 50 100 ≤ 100 :=
  ⟨(progress_percentage_props 50 100).1 (by norm_num),
   (progress_percentage_props 50 100).2.2.2 (by norm_num) (by norm_num)⟩

/-- Counterexample to C4 as stated: for a progress tick with
`downloaded_bytes = 150` and resolved total `100` (e.g. a total-bytes
estimate the download overshoots), `_progress_hook` reports 150 — the claim
says the reported percentage never exceeds 100 by clamping, but the code
has no clamp. -/
theorem progress_percentage_no_clamp_cex :
    100 < progressPercentage 150 (resolveTotal none 100) := by
  norm_num [progressPercentage, resolveTotal]

/-- Claim C5: the engine format selector is determined by (kind, quality):
`video/highest` gives the best-merge selector, `video/144p` gives `"worst"`,
every other video height option gives the height-constrained selector, and
audio always gives the best-audio selector; in particular `720p` takes the
height-constrained branch. -/
theorem format_selector_correct :
    format_string "video" "highest" = "bestvideo+bestaudio/best" ∧
    format_string "video" "144p" = "worst" ∧
    (∀ p ∈ heightQualities,
      format_string "video" p.1 =
        "bestvideo[height<=" ++ p.2 ++ "]+bestaudio/best[height<=" ++ p.2 ++ "]") ∧
    (∀ quality : String, format_string "audio" quality = "bestaudio/best") := by
  refine ⟨by decide, by decide, ?_, fun quality => ?_⟩
  · intro p hp
    fin_cases hp <;> decide
  · simp [format_string]

/-- Witness for C5 at the spec's end-to-end input `("video", "720p")`. -/
theorem format_selector_correct_witness :
    format_string "video" "720p" =
      "bestvideo[height<=720]+bestaudio/best[height<=720]" :=
  format_selector_correct.2.2.1 ("720p", "720") (by decide)

/-- Claim C6: `DownloadWorker.run` emits exactly one terminal event when it
reaches the download guard with `_is_running` still true (success, engine
failure, and hook-raised cancellation all emit once), but when `stop()` has
already flipped `_is_running` before the guard is reached, the body is
skipped and `run` returns after emitting ZERO terminal events — the
spec's "exactly one terminal event, never zero, regardless of when
`stop()` is called" is violated by the code at that input. -/
theorem worker_run_terminal_events :
    (∀ vid eng, (workerRun vid true eng).length = 1) ∧
    (∀ vid b eng, (workerRun vid b eng).length ≤ 1) ∧
    (workerRun "v1" false (Except.ok ())).length = 0 := by
  refine ⟨fun vid eng => ?_, fun vid b eng => ?_, rfl⟩
  · cases eng <;> rfl
  · cases b <;> cases eng <;> simp [workerRun]

/-- Claim C8: `_add_to_queue` is idempotent on id — an already-present id
leaves the ordered queue unchanged (returning false), an absent id is
appended at the end (returning true). -/
theorem add_to_queue_idempotent (queue : List VideoInfo) (v : VideoInfo) :
    (v.video_id ∈ queue.map VideoInfo.video_id → add_to_queue queue v = (queue, false)) ∧
    (v.video_id ∉ queue.map VideoInfo.video_id → add_to_queue queue v = (queue ++ [v], true)) := by
  constructor
  · intro h
    simp [add_to_queue, h]
  · intro h
    simp [add_to_queue, h]

/-- Witness for C8: a duplicate id is rejected, a fresh id is appended at
the end. -/
theorem add_to_queue_idempotent_witness :
    add_to_queue [⟨"a", "t", "au", "0:10", "u"⟩] ⟨"a", "t2", "au2", "0:20", "u2"⟩ =
        ([⟨"a", "t", "au", "0:10", "u"⟩], false) ∧
    add_to_queue [⟨"a", "t", "au", "0:10", "u"⟩] ⟨"b", "t2", "au2", "0:20", "u2"⟩ =
        ([⟨"a", "t", "au", "0:10", "u"⟩, ⟨"b", "t2", "au2", "0:20", "u2"⟩], true) :=
  ⟨(add_to_queue_idempotent [⟨"a", "t", "au", "0:10", "u"⟩] ⟨"a", "t2", "au2", "0:20", "u2"⟩).1
      (by decide),
   (add_to_queue_idempotent [⟨"a", "t", "au", "0:10", "u"⟩] ⟨"b", "t2", "au2", "0:20", "u2"⟩).2
      (by decide)⟩

/-! Lemmas about the status-marking pipeline. -/

theorem lookup_map_self (f : String → String) (ids : List String) (vid : String) :
    (ids.map fun i => (i, f i)).lookup vid = if vid ∈ ids then some (f vid) else none := by
  induction ids with
  | nil => simp [List.lookup]
  | cons i rest ih =>
    by_cases h : vid = i
    · subst h
      simp [List.lookup]
    · have hbeq : (vid == i) = false := beq_eq_false_iff_ne.mpr h
      simp [List.lookup, hbeq, h, ih]

theorem map_update_not_mem (its : List (String × String)) (vid st : String)
    (h : vid ∉ its.map Prod.fst) :
    its.map (fun p => if p.1 = vid then (p.1, st) else p) = its := by
  induction its with
  | nil => rfl
  | cons p rest ih =>
    simp only [List.map_cons, List.mem_cons, not_or] at h ⊢
    rw [if_neg (fun he => h.1 he.symm), ih h.2]

theorem markItem_cons_ne (k s : String) (its : List (String × String))
    (vid : String) (success : Bool) (m : String) (h : k ≠ vid) :
    markItem ((k, s) :: its) vid success m = (k, s) :: markItem its vid success m := by
  have hbeq : (vid == k) = false := beq_eq_false_iff_ne.mpr (Ne.symm h)
  by_cases h2 : (its.lookup vid).isSome <;>
    simp [markItem, List.lookup, hbeq, h, h2]

theorem markItem_cons_self (vid s : String) (its : List (String × String))
    (success : Bool) (m : String) (h : vid ∉ its.map Prod.fst) :
    markItem ((vid, s) :: its) vid success m = (vid, statusText success m) :: its := by
  simp [markItem, List.lookup, map_update_not_mem its vid _ h]

theorem processFinishes_cons_ne (k s : String) (its : List (String × String))
    (evs : List TerminalEv) (h : ∀ e ∈ evs, e.video_id ≠ k) :
    processFinishes ((k, s) :: its) evs = (k, s) :: processFinishes its evs := by
  induction evs generalizing its with
  | nil => rfl
  | cons e evs ih =>
    show processFinishes (markItem ((k, s) :: its) e.video_id e.success e.message) evs = _
    rw [markItem_cons_ne k s its _ _ _ (fun hk => h e (List.mem_cons_self e evs) hk.symm)]
    exact ih (markItem its e.video_id e.success e.message)
      (fun e2 he2 => h e2 (List.mem_cons_of_mem e he2))

theorem processFinishes_eq (ids : List String) (init emsg : String → String)
    (res : String → Bool) (hnd : ids.Nodup) :
    processFinishes (ids.map fun i => (i, init i))
        (ids.map fun i => TerminalEv.mk i (res i) (emsg i)) =
      ids.map fun i => (i, statusText (res i) (emsg i)) := by
  induction ids with
  | nil => rfl
  | cons i rest ih =>
    obtain ⟨hi, hrest⟩ := List.nodup_cons.mp hnd
    show processFinishes
        (markItem ((i, init i) :: rest.map fun j => (j, init j)) i (res i) (emsg i))
        (rest.map fun j => TerminalEv.mk j (res j) (emsg j)) = _
    rw [markItem_cons_self i _ _ _ _ (by simpa using hi)]
    rw [processFinishes_cons_ne i _ _ _ (by
      intro e he
      simp only [List.mem_map] at he
      obtain ⟨j, hj, rfl⟩ := he
      exact fun hji => hi (hji ▸ hj))]
    rw [ih hrest]
    rfl

theorem pyStartsWith_statusText (success : Bool) (m : String) :
    pyStartsWith (statusText success m) "✓" = success := by
  cases success
  · rfl
  · rfl

theorem allSuccess_eq_all (res : String → Bool) (its : List (String × String))
    (queue : List VideoInfo)
    (h : ∀ v ∈ queue, ∃ m, its.lookup v.video_id = some (statusText (res v.video_id) m)) :
    allSuccess queue its = queue.all (fun v => res v.video_id) := by
  induction queue with
  | nil => rfl
  | cons v rest ih =>
    obtain ⟨m, hm⟩ := h v (List.mem_cons_self v rest)
    have ht : allSuccess rest its = rest.all (fun u => res u.video_id) :=
      ih (fun u hu => h u (List.mem_cons_of_mem v hu))
    simp only [allSuccess, List.all_cons] at ht ⊢
    rw [hm, ht]
    simp [pyStartsWith_statusText]

theorem removeAllItems_eq_filter (keys : List String) (queue : List VideoInfo) :
    removeAllItems queue keys = queue.filter (fun v => !(keys.contains v.video_id)) := by
  induction keys generalizing queue with
  | nil => simp [removeAllItems]
  | cons k ks ih =>
    show removeAllItems (queue.filter fun v => v.video_id ≠ k) ks = _
    rw [ih, List.filter_filter]
    apply List.filter_congr
    intro v hv
    by_cases hk : v.video_id = k <;> simp [hk, List.contains_cons]

/-- Claim C3: with every queued record carrying a queue-item widget (the
bulk-queue situation), after one terminal event per queued record the
`all_success` verdict is true iff zero tasks reported failure; the removal
loop runs only in the all-success bulk-queue-mode case, so on any other
outcome (including a partial failure) the queue — succeeded records
included — is left untouched; and on all-success in bulk mode every
record with an item is removed. -/
theorem batch_outcome_iff_no_failures (queue : List VideoInfo)
    (init emsg : String → String) (res : String → Bool)
    (hnd : (queue.map VideoInfo.video_id).Nodup) :
    (allSuccess queue
        (processFinishes ((queue.map VideoInfo.video_id).map fun i => (i, init i))
          ((queue.map VideoInfo.video_id).map fun i => TerminalEv.mk i (res i) (emsg i))) =
      queue.all (fun v => res v.video_id)) ∧
    (∀ (bulk_mode all_success : Bool) (q : List VideoInfo) (itemKeys : List String),
      all_success = false ∨ bulk_mode = false →
        finishQueue bulk_mode all_success q itemKeys = q) ∧
    (finishQueue true true queue (queue.map VideoInfo.video_id) = []) := by
  refine ⟨?_, ?_, ?_⟩
  · rw [processFinishes_eq _ init emsg res hnd]
    apply allSuccess_eq_all
    intro v hv
    refine ⟨emsg v.video_id, ?_⟩
    rw [lookup_map_self]
    rw [if_pos (List.mem_map_of_mem VideoInfo.video_id hv)]
  · intro bulk asucc q itemKeys h
    rcases h with h | h <;> simp [finishQueue, h]
  · rw [show finishQueue true true queue (queue.map VideoInfo.video_id) =
        removeAllItems queue (queue.map VideoInfo.video_id) from rfl]
    rw [removeAllItems_eq_filter]
    rw [List.filter_eq_nil_iff]
    intro v hv
    simp [List.mem_map_of_mem VideoInfo.video_id hv]

/-- Witness for C3: a batch of 3 with 2 successes and 1 failure yields
`all_success = false` and leaves all three records queued. -/
theorem batch_outcome_iff_no_failures_witness :
    allSuccess sampleQueue3
        (processFinishes ((sampleQueue3.map VideoInfo.video_id).map fun i => (i, ""))
          ((sampleQueue3.map VideoInfo.video_id).map fun i =>
            TerminalEv.mk i (i != "c") "boom")) = false ∧
    finishQueue true false sampleQueue3 (sampleQueue3.map VideoInfo.video_id) =
      sampleQueue3 := by
  constructor
  · exact ((batch_outcome_iff_no_failures sampleQueue3 (fun _ => "") (fun _ => "boom")
      (fun i => i != "c") (by decide)).1).trans (by decide)
  · exact (batch_outcome_iff_no_failures sampleQueue3 (fun _ => "") (fun _ => "boom")
      (fun i => i != "c") (by decide)).2.1 true false sampleQueue3 _ (Or.inl rfl)

/-- Claim C7: the `all_success` check ranges only over queued records that
have a `queue_items` entry; in the single-video view `queue_items` is
empty, a terminal event records no status anywhere, the check is vacuously
true, and the success message is reported even when the task failed. -/
theorem single_view_vacuous_success (queue : List VideoInfo) (vid : String)
    (success : Bool) (message : String) (total : Nat) :
    markItem [] vid success message = [] ∧
    allSuccess queue [] = true ∧
    finishMessage (allSuccess queue []) total =
      "All " ++ toString total ++ " downloads completed successfully!" := by
  have h2 : allSuccess queue [] = true := by
    simp [allSuccess, List.lookup, List.all_eq_true]
  exact ⟨by simp [markItem, List.lookup], h2, by rw [h2]; simp [finishMessage]⟩

theorem mem_selDiscard (sel : List String) (vid x : String) :
    x ∈ selDiscard sel vid ↔ x ∈ sel ∧ x ≠ vid := by
  simp [selDiscard]

theorem storeStep_selected_inv (s : Store) (op : StoreOp) (h : StoreInv s)
    (hop : validOp s op = true) : StoreInv (storeStep s op) := by
  cases op with
  | add v =>
    intro vid hvid
    obtain ⟨u, hu, hui⟩ := h vid hvid
    refine ⟨u, ?_, hui⟩
    simp only [storeStep, add_to_queue]
    split
    · exact hu
    · exact List.mem_append_left _ hu
  | remove rid =>
    intro vid hvid
    rw [show (storeStep s (StoreOp.remove rid)).selected_videos =
        selDiscard s.selected_videos rid from rfl] at hvid
    obtain ⟨hmem, hne⟩ := (mem_selDiscard _ _ _).mp hvid
    obtain ⟨u, hu, hui⟩ := h vid hmem
    refine ⟨u, ?_, hui⟩
    simp only [storeStep, remove_from_queue, List.mem_filter]
    exact ⟨hu, by simp [hui, hne]⟩
  | select vid2 =>
    intro vid hvid
    simp only [storeStep, selAdd] at hvid
    split at hvid
    · exact h vid hvid
    · rcases List.mem_append.mp hvid with hmem | hmem
      · exact h vid hmem
      · simp only [List.mem_singleton] at hmem
        subst hmem
        simp only [validOp, List.any_eq_true] at hop
        obtain ⟨u, hu, hui⟩ := hop
        exact ⟨u, hu, by simpa using hui⟩
  | unselect vid2 =>
    intro vid hvid
    obtain ⟨hmem, _⟩ := (mem_selDiscard _ _ _).mp hvid
    exact h vid hmem
  | deleteSelected => intro vid hvid; simp [storeStep] at hvid
  | cancelSelection => intro vid hvid; simp [storeStep] at hvid
  | clearDisplay => intro vid hvid; simp [storeStep] at hvid

theorem runStore_inv (s : Store) (ops : List StoreOp) (h : StoreInv s)
    (hv : validOps s ops = true) : StoreInv (runStore s ops) := by
  induction ops generalizing s with
  | nil => exact h
  | cons op ops ih =>
    rw [show validOps s (op :: ops) =
        (validOp s op && validOps (storeStep s op) ops) from rfl,
      Bool.and_eq_true] at hv
    exact ih (storeStep s op) (storeStep_selected_inv s op h hv.1) hv.2

/-- Claim C9: from any state satisfying the invariant, every valid UI trace
preserves «selection set ⊆ queued-id set», and a `remove` on a currently
selected id yields — in the single atomic `_remove_from_queue` step — a
state where the id is neither queued nor selected. -/
theorem selection_invariant_and_atomic_remove (s : Store) (ops : List StoreOp)
    (h0 : StoreInv s) (hv : validOps s ops = true) :
    StoreInv (runStore s ops) ∧
    (∀ vid ∈ (runStore s ops).selected_videos,
      (∀ v ∈ (storeStep (runStore s ops) (StoreOp.remove vid)).video_queue,
        v.video_id ≠ vid) ∧
      vid ∉ (storeStep (runStore s ops) (StoreOp.remove vid)).selected_videos) := by
  refine ⟨runStore_inv s ops h0 hv, fun vid _ => ⟨fun v hvmem => ?_, fun hsel => ?_⟩⟩
  · rw [show (storeStep (runStore s ops) (StoreOp.remove vid)).video_queue =
        (runStore s ops).video_queue.filter (fun v2 => v2.video_id ≠ vid) from rfl] at hvmem
    have := (List.mem_filter.mp hvmem).2
    simpa using this
  · rw [show (storeStep (runStore s ops) (StoreOp.remove vid)).selected_videos =
        selDiscard (runStore s ops).selected_videos vid from rfl] at hsel
    exact ((mem_selDiscard _ _ _).mp hsel).2 rfl

/-- Witness for C9: add two records, select both, then remove `"a"`;
the invariant holds and the removal clears `"a"` from queue and selection
in one step. -/
theorem selection_invariant_and_atomic_remove_witness :
    StoreInv (runStore ⟨[], []⟩
      [StoreOp.add ⟨"a", "t", "u", "0:10", "th"⟩, StoreOp.add ⟨"b", "t", "u", "0:20", "th"⟩,
       StoreOp.select "a", StoreOp.select "b"]) ∧
    "a" ∉ (storeStep (runStore ⟨[], []⟩
      [StoreOp.add ⟨"a", "t", "u", "0:10", "th"⟩, StoreOp.add ⟨"b", "t", "u", "0:20", "th"⟩,
       StoreOp.select "a", StoreOp.select "b"]) (StoreOp.remove "a")).selected_videos :=
  ⟨(selection_invariant_and_atomic_remove ⟨[], []⟩ _ (by intro vid hvid; simp at hvid)
      (by decide)).1,
   ((selection_invariant_and_atomic_remove ⟨[], []⟩ _ (by intro vid hvid; simp at hvid)
      (by decide)).2 "a" (by decide)).2⟩

theorem countP_split_filter (l : List Ev) (p q : Ev → Bool) :
    l.countP p = (l.filter q).countP p + (l.filter (fun a => !q a)).countP p := by
  induction l with
  | nil => rfl
  | cons a l ih =>
    by_cases hq : q a <;> by_cases hp : p a <;>
      simp [List.countP_cons, List.filter_cons, hq, hp, ih] <;> omega

theorem countP_isFin_taskStream (t : String) (ps : List (ℚ × String × String))
    (success : Bool) (message : String) :
    (taskStream t ps success message).countP Ev.isFin = 1 := by
  rw [taskStream, List.countP_append, List.countP_map]
  have h0 : ps.countP (Ev.isFin ∘ fun p => Ev.prog t p.1 p.2.1 p.2.2) = 0 := by
    rw [List.countP_eq_zero]
    intro p _
    simp [Function.comp, Ev.isFin]
  rw [h0]
  rfl

theorem validTrace_restrict (i : String) (ids : List String) (tr : List Ev)
    (hv : ValidTrace (i :: ids) tr) :
    ValidTrace ids (tr.filter (fun e => !(e.id == i))) := by
  obtain ⟨hnd, hcov, hstr⟩ := hv
  obtain ⟨hi, hndr⟩ := List.nodup_cons.mp hnd
  refine ⟨hndr, ?_, ?_⟩
  · intro e he
    obtain ⟨hetr, hne⟩ := List.mem_filter.mp he
    have := hcov e hetr
    simp only [List.mem_cons] at this
    rcases this with h | h
    · rw [h] at hne
      simp at hne
    · exact h
  · intro t ht
    obtain ⟨ps, success, message, hps⟩ := hstr t (List.mem_cons_of_mem i ht)
    refine ⟨ps, success, message, ?_⟩
    rw [idEvents, List.filter_filter]
    have hcong : tr.filter (fun e => (e.id == t) && !(e.id == i)) =
        tr.filter (fun e => e.id == t) := by
      apply List.filter_congr
      intro e _
      by_cases he : e.id = t
      · have hti : t ≠ i := fun hti => hi (hti ▸ ht)
        simp [he, hti]
      · simp [he]
    rw [hcong]
    exact hps

theorem validTrace_countP_isFin (ids : List String) (tr : List Ev)
    (hv : ValidTrace ids tr) : tr.countP Ev.isFin = ids.length := by
  induction ids generalizing tr with
  | nil =>
    have : tr = [] := by
      rw [List.eq_nil_iff_forall_not_mem]
      intro e he
      simpa using hv.2.1 e he
    rw [this]
    rfl
  | cons i rest ih =>
    obtain ⟨ps, success, message, hps⟩ := hv.2.2 i (List.mem_cons_self i rest)
    rw [countP_split_filter tr Ev.isFin (fun e => e.id == i)]
    rw [show tr.filter (fun e => e.id == i) = idEvents i tr from rfl, hps,
      countP_isFin_taskStream]
    rw [ih _ (validTrace_restrict i rest tr hv)]
    simp only [List.length_cons]
    omega

theorem mem_of_getLast?_ev (l : List Ev) (e : Ev) (h : l.getLast? = some e) :
    e ∈ l := by
  have hmem : e ∈ l.getLast? := by simp [Option.mem_def, h]
  obtain ⟨hne, heq⟩ := List.mem_getLast?_eq_getLast hmem
  rw [heq]
  exact List.getLast_mem hne

theorem getLast?_filter_of_pos (p : Ev → Bool) (l : List Ev) (e : Ev)
    (hl : l.getLast? = some e) (hp : p e = true) :
    (l.filter p).getLast? = some e := by
  induction l with
  | nil => simp at hl
  | cons a l ih =>
    cases l with
    | nil =>
      have ha : a = e := by simpa using hl
      subst ha
      simp [List.filter_cons, hp]
    | cons b l2 =>
      rw [List.getLast?_cons_cons] at hl
      have hfl := ih hl
      have hne : (b :: l2).filter p ≠ [] := by
        intro hnil
        rw [hnil] at hfl
        simp at hfl
      by_cases hpa : p a
      · rw [List.filter_cons_of_pos hpa]
        obtain ⟨c, l3, hc⟩ : ∃ c l3, (b :: l2).filter p = c :: l3 := by
          cases hfilter : (b :: l2).filter p with
          | nil => exact absurd hfilter hne
          | cons c l3 => exact ⟨c, l3, rfl⟩
        rw [hc, List.getLast?_cons_cons, ← hc]
        exact hfl
      · rw [List.filter_cons_of_neg hpa]
        exact hfl

theorem validTrace_getLast_isFin (ids : List String) (tr : List Ev) (e : Ev)
    (hv : ValidTrace ids tr) (hl : tr.getLast? = some e) : e.isFin = true := by
  have hetr : e ∈ tr := mem_of_getLast?_ev tr e hl
  have hid : e.id ∈ ids := hv.2.1 e hetr
  obtain ⟨ps, success, message, hps⟩ := hv.2.2 e.id hid
  have hfl : (tr.filter (fun e2 => e2.id == e.id)).getLast? = some e :=
    getLast?_filter_of_pos _ tr e hl (by simp)
  rw [show tr.filter (fun e2 => e2.id == e.id) = idEvents e.id tr from rfl, hps,
    taskStream, List.getLast?_concat] at hfl
  rw [← Option.some.inj hfl]
  rfl

theorem runOrch_active (s : OrchState) (tr : List Ev) :
    (runOrch s tr).active_downloads = s.active_downloads - tr.countP Ev.isFin := by
  induction tr generalizing s with
  | nil => simp [runOrch]
  | cons e tr ih =>
    rw [show runOrch s (e :: tr) = runOrch (orchStep s e) tr from rfl, ih]
    cases e with
    | prog vid pct sp et => simp [orchStep, List.countP_cons, Ev.isFin]
    | fin vid success message =>
      simp only [orchStep, List.countP_cons, Ev.isFin]
      push_cast
      ring

/-- Claim C1: starting a batch over `ids` creates one worker per record and
sets `active_downloads = total_downloads = |ids|`; every terminal event
decrements `active_downloads` by exactly one; and along any valid batch
trace the count stays non-negative and hits zero exactly at the end of the
trace — in particular no progress event of the batch is processed after it
reaches zero. -/
theorem batch_lifecycle (ids : List String) (tr : List Ev)
    (output_dir format_type quality container_format : String)
    (hv : ValidTrace ids tr) :
    (startWorkers ids output_dir format_type quality container_format).length =
      ids.length ∧
    (startBatch ids).active_downloads = ids.length ∧
    (startBatch ids).total_downloads = ids.length ∧
    (∀ (s : OrchState) (vid : String) (success : Bool) (message : String),
      (orchStep s (Ev.fin vid success message)).active_downloads =
        s.active_downloads - 1) ∧
    (∀ p q : List Ev, tr = p ++ q →
      (0 ≤ (runOrch (startBatch ids) p).active_downloads ∧
        ((runOrch (startBatch ids) p).active_downloads = 0 ↔ q = []))) := by
  refine ⟨by simp [startWorkers], rfl, rfl, fun s vid success message => rfl, ?_⟩
  intro p q hpq
  have htotal : tr.countP Ev.isFin = ids.length := validTrace_countP_isFin ids tr hv
  have hsplit : p.countP Ev.isFin + q.countP Ev.isFin = ids.length := by
    rw [← htotal, hpq, List.countP_append]
  have hact : (runOrch (startBatch ids) p).active_downloads =
      (ids.length : Int) - p.countP Ev.isFin := runOrch_active _ p
  refine ⟨by rw [hact]; omega, ?_, ?_⟩
  · intro h0
    rw [hact] at h0
    have hqfin : q.countP Ev.isFin = 0 := by omega
    by_contra hq
    obtain ⟨e, he⟩ : ∃ e, q.getLast? = some e := by
      cases hq2 : q.getLast? with
      | none => exact absurd (List.getLast?_eq_none_iff.mp hq2) hq
      | some e => exact ⟨e, rfl⟩
    have htr_last : tr.getLast? = some e := by
      rw [hpq, List.getLast?_append_of_ne_nil p hq]
      exact he
    have hfin := validTrace_getLast_isFin ids tr e hv htr_last
    have hpos : 0 < q.countP Ev.isFin :=
      List.countP_pos_iff.mpr ⟨e, mem_of_getLast?_ev q e he, hfin⟩
    omega
  · intro hq
    subst hq
    rw [List.append_nil] at hpq
    subst hpq
    rw [hact]
    omega

/-- Witness for C1: on the concrete one-task trace, the active count is
zero exactly after the full trace. -/
theorem batch_lifecycle_witness :
    (runOrch (startBatch ["a"]) sampleTrace1).active_downloads = 0 :=
  ((batch_lifecycle ["a"] sampleTrace1 "out" "video" "720p" "mp4"
      ⟨by decide, by decide, by
        intro t ht
        simp only [List.mem_singleton] at ht
        subst ht
        exact ⟨[(50, "1.0 KB/s", "3s")], true, "Download completed successfully!",
          by decide⟩⟩).2.2.2.2 sampleTrace1 [] (by simp)).2.mpr rfl

theorem runOrch_vals (s : OrchState) (tr : List Ev) (t : String) :
    (runOrch s tr).download_progress.vals t =
      lastProgVal t tr (s.download_progress.vals t) := by
  induction tr generalizing s with
  | nil => rfl
  | cons e tr ih =>
    rw [show runOrch s (e :: tr) = runOrch (orchStep s e) tr from rfl, ih]
    cases e with
    | prog vid pct sp et =>
      have hstep : (orchStep s (Ev.prog vid pct sp et)).download_progress.vals t =
          if vid = t then pct else s.download_progress.vals t := by
        by_cases hvt : vid = t
        · subst hvt
          simp [orchStep, Dict.set]
        · simp [orchStep, Dict.set, hvt, show ¬(t = vid) from fun h2 => hvt h2.symm]
      rw [hstep]
      rfl
    | fin vid success message => rfl

theorem lastProgVal_filter (t : String) (tr : List Ev) (dflt : ℚ) :
    lastProgVal t tr dflt = lastProgVal t (tr.filter (fun e => e.id == t)) dflt := by
  induction tr generalizing dflt with
  | nil => rfl
  | cons e tr ih =>
    cases e with
    | prog vid pct sp et =>
      by_cases h : vid = t
      · rw [List.filter_cons_of_pos (by simp [Ev.id, h])]
        exact ih _
      · rw [List.filter_cons_of_neg (by simp [Ev.id, h])]
        have hL : lastProgVal t (Ev.prog vid pct sp et :: tr) dflt =
            lastProgVal t tr dflt := by
          show lastProgVal t tr (if vid = t then pct else dflt) = lastProgVal t tr dflt
          rw [if_neg h]
        rw [hL]
        exact ih dflt
    | fin vid success message =>
      by_cases h : vid = t
      · rw [List.filter_cons_of_pos (by simp [Ev.id, h])]
        exact ih dflt
      · rw [List.filter_cons_of_neg (by simp [Ev.id, h])]
        exact ih dflt

theorem runOrch_keys (s : OrchState) (tr : List Ev)
    (h : ∀ e ∈ tr, e.id ∈ s.download_progress.keys) :
    (runOrch s tr).download_progress.keys = s.download_progress.keys := by
  induction tr generalizing s with
  | nil => rfl
  | cons e tr ih =>
    have hkeys : (orchStep s e).download_progress.keys = s.download_progress.keys := by
      cases e with
      | prog vid pct sp et =>
        have hmem : vid ∈ s.download_progress.keys := by
          simpa [Ev.id] using h (Ev.prog vid pct sp et) (List.mem_cons_self _ tr)
        simp [orchStep, Dict.set, hmem]
      | fin vid success message => rfl
    rw [show runOrch s (e :: tr) = runOrch (orchStep s e) tr from rfl]
    rw [ih (orchStep s e) (fun e2 he2 => by
      rw [hkeys]
      exact h e2 (List.mem_cons_of_mem e he2))]
    exact hkeys

/-- Claim C2 (amended): the republished aggregate is the arithmetic mean of
the stored per-task percentages, and delivering a fixed family of per-task
event streams in any interleaving yields the same final aggregate (updates
are keyed by `video_id`); the mean lies in `[0, 100]` whenever every stored
value does — but stored values are unclamped percentages, so the aggregate
itself can exceed 100 (see the counterexample). -/
theorem avg_progress_mean_bounds_commutes :
    (∀ d : Dict, d.keys ≠ [] → avgProgress d = arithMean (Dict.values d)) ∧
    (∀ d : Dict, d.keys ≠ [] → (∀ k ∈ d.keys, 0 ≤ d.vals k ∧ d.vals k ≤ 100) →
      0 ≤ avgProgress d ∧ avgProgress d ≤ 100) ∧
    (∀ (s : OrchState) (tr1 tr2 : List Ev),
      (∀ e ∈ tr1, e.id ∈ s.download_progress.keys) →
      (∀ t : String, tr1.filter (fun e => e.id == t) = tr2.filter (fun e => e.id == t)) →
      avgProgress (runOrch s tr1).download_progress =
        avgProgress (runOrch s tr2).download_progress) := by
  refine ⟨fun d _ => rfl, fun d hne hb => ?_, fun s tr1 tr2 hkeys1 hfil => ?_⟩
  · have hxb : ∀ x ∈ Dict.values d, 0 ≤ x ∧ x ≤ 100 := by
      intro x hx
      obtain ⟨k, hk, rfl⟩ := List.mem_map.mp hx
      exact hb k hk
    have hlen : (Dict.values d).length = d.keys.length := List.length_map _ _
    have hpos : 0 < ((Dict.values d).length : ℚ) := by
      rw [hlen]
      exact_mod_cast List.length_pos.mpr hne
    constructor
    · apply div_nonneg
      · exact List.sum_nonneg (fun x hx => (hxb x hx).1)
      · positivity
    · rw [avgProgress, div_le_iff₀ hpos]
      have hsum : (Dict.values d).sum ≤ (Dict.values d).length • (100 : ℚ) :=
        List.sum_le_card_nsmul _ _ (fun x hx => (hxb x hx).2)
      rw [nsmul_eq_mul] at hsum
      linarith
  · have hkeys2 : ∀ e ∈ tr2, e.id ∈ s.download_progress.keys := by
      intro e he
      have hmem : e ∈ tr2.filter (fun e2 => e2.id == e.id) :=
        List.mem_filter.mpr ⟨he, by simp⟩
      rw [← hfil e.id] at hmem
      exact hkeys1 e (List.mem_filter.mp hmem).1
    have hk1 := runOrch_keys s tr1 hkeys1
    have hk2 := runOrch_keys s tr2 hkeys2
    have hfeq : (runOrch s tr1).download_progress.vals =
        (runOrch s tr2).download_progress.vals := by
      funext t
      rw [runOrch_vals, runOrch_vals, lastProgVal_filter t tr1, lastProgVal_filter t tr2,
        hfil t]
    rw [avgProgress, avgProgress, Dict.values, Dict.values, hk1, hk2, hfeq]

/-- Witness for C2's amended claim: a fresh one-task batch has mean 0 within
bounds, and two cross-task interleavings of the same per-task events agree. -/
theorem avg_progress_mean_bounds_commutes_witness :
    avgProgress (initProgress ["a"]) = arithMean (Dict.values (initProgress ["a"])) ∧
    (0 ≤ avgProgress (initProgress ["a"]) ∧ avgProgress (initProgress ["a"]) ≤ 100) ∧
    avgProgress (runOrch (startBatch ["a", "b"])
        [Ev.prog "a" 10 "s1" "e1", Ev.prog "b" 20 "s2" "e2"]).download_progress =
      avgProgress (runOrch (startBatch ["a", "b"])
        [Ev.prog "b" 20 "s2" "e2", Ev.prog "a" 10 "s1" "e1"]).download_progress := by
  refine ⟨avg_progress_mean_bounds_commutes.1 (initProgress ["a"]) (by decide),
    avg_progress_mean_bounds_commutes.2.1 (initProgress ["a"]) (by decide) (by decide),
    avg_progress_mean_bounds_commutes.2.2 (startBatch ["a", "b"]) _ _ (by decide) ?_⟩
  intro t
  cases hae : ("a" == t) <;> cases hbe : ("b" == t)
  · simp [List.filter, Ev.id, hae, hbe]
  · simp [List.filter, Ev.id, hae, hbe]
  · simp [List.filter, Ev.id, hae, hbe]
  · exact absurd ((beq_iff_eq.mp hae).trans (beq_iff_eq.mp hbe).symm) (by decide)

/-- Counterexample to C2 as stated: after an unclamped progress event of
150% (`downloaded = 150` against a resolved total estimate of 100), the
aggregate for a one-task batch is 150, outside `[0, 100]`. -/
theorem avg_progress_exceeds_100_cex :
    100 < avgProgress (runOrch (startBatch ["a"])
      [Ev.prog "a" (progressPercentage 150 (resolveTotal none 100)) "s" "e"]).download_progress := by
  norm_num [avgProgress, Dict.values, runOrch, orchStep, startBatch, initProgress,
    Dict.empty, Dict.set, progressPercentage, resolveTotal]
